import Mathlib

/-!
Shallow embedding of the `httpcheck` package (JanBerktold/httpcheck):
a fluent assertion helper that builds an HTTP request, dispatches it
directly against an in-process handler, captures the response, and
exposes chained assertions, with a per-Checker cookie jar replayed on
every execution.

Go strings and byte slices are modelled as `List Char` (`GoStr`);
`http.Header` (a `map[string][]string`) as an association list from
keys to value lists; the cookie jar (`map[string]string`) as an
association list with overwrite-on-insert; a Go `panic` as the error
side of `Except`.  The handler bound at `New` is never reassigned, so
it is passed to `checkE` as an explicit parameter.
-/

namespace Httpcheck

/-- A Go string / byte slice, as a list of characters. -/
abbrev GoStr := List Char

/-- The run-time panics the package can hit: dereferencing the nil
`c.request` or `c.response` pointer, and the explicit
`panic("did not find = in cookie string")` in `handleCookies`. -/
inductive GoPanic where
  | nilRequest
  | nilResponse
  | cookiePanic
  deriving DecidableEq, Repr

/-- The cookie jar `map[string]string`, as an association list. -/
abbrev Jar := List (GoStr × GoStr)

/-- Go map read `m[k]`: the value of the first entry with key `k`. -/
def jarLookup : Jar → GoStr → Option GoStr
  | [], _ => none
  | (k, v) :: rest, name => if k = name then some v else jarLookup rest name

/-- Go map write `m[k] = v`: overwrite the entry for `k`, else add it. -/
def jarInsert : Jar → GoStr → GoStr → Jar
  | [], k, v => [(k, v)]
  | (k0, v0) :: rest, k, v =>
    if k0 = k then (k, v) :: rest else (k0, v0) :: jarInsert rest k v

/-- Go `strings.Index(s, string(t))` for a one-character separator:
index of the first occurrence, `none` standing for Go's `-1`. -/
def goIndexOf : GoStr → Char → Option Nat
  | [], _ => none
  | c :: rest, t =>
    if c = t then some 0 else (goIndexOf rest t).map (· + 1)

/-- Go `validHeaderFieldByte` from net/textproto: the HTTP token bytes
(RFC 7230).  The apostrophe, backtick, caret and tilde are written via
their code points. -/
def validHeaderFieldChar (c : Char) : Bool :=
  c.isAlphanum || c = '!' || c = '#' || c = '$' || c = '%' || c = '&' ||
    c = Char.ofNat 39 || c = '*' || c = '+' || c = '-' || c = '.' ||
    c = Char.ofNat 94 || c = '_' || c = Char.ofNat 96 || c = '|' ||
    c = Char.ofNat 126

/-- The case-mangling loop of `textproto.CanonicalMIMEHeaderKey`:
uppercase the first letter and each letter following a hyphen,
lowercase the rest.  The flag records whether the previous character
was a hyphen (initially true). -/
def canonAux : Bool → GoStr → GoStr
  | _, [] => []
  | up, c :: rest =>
    let c2 := if up then c.toUpper else c.toLower
    c2 :: canonAux (c2 = '-') rest

/-- Go `textproto.CanonicalMIMEHeaderKey`: returned unchanged when some
character is not a valid header-field byte. -/
def canonicalMIMEHeaderKey (s : GoStr) : GoStr :=
  if s.all validHeaderFieldChar then canonAux true s else s

/-- Go `http.Header`, a `map[string][]string`, as an association list. -/
abbrev Headers := List (GoStr × List GoStr)

/-- Go map index `h[k]` on a header map, with the `exist` flag folded
into the `Option`.  No key canonicalization (Go indexes the map raw,
as `handleCookies` does with `r.Header["Set-Cookie"]`). -/
def headerIndex : Headers → GoStr → Option (List GoStr)
  | [], _ => none
  | (k, vs) :: rest, key => if k = key then some vs else headerIndex rest key

/-- The value list stored under a raw key, `[]` when absent. -/
def headerValues (h : Headers) (key : GoStr) : List GoStr :=
  (headerIndex h key).getD []

/-- Go map write `h[k] = []string{v}` on the raw key. -/
def headerSetRaw : Headers → GoStr → GoStr → Headers
  | [], k, v => [(k, [v])]
  | (k0, vs) :: rest, k, v =>
    if k0 = k then (k, [v]) :: rest else (k0, vs) :: headerSetRaw rest k v

/-- Go `Header.Set(key, value)`: canonicalizes the key, then replaces the
stored value list with the singleton `[value]`. -/
def headerSet (h : Headers) (key value : GoStr) : Headers :=
  headerSetRaw h (canonicalMIMEHeaderKey key) value

/-- Go `Header.Get(key)`: canonicalizes the key and returns the first
stored value, or the empty string when the key is absent. -/
def headerGet (h : Headers) (key : GoStr) : GoStr :=
  match headerValues h (canonicalMIMEHeaderKey key) with
  | [] => []
  | v :: _ => v

/-- The key `"Set-Cookie"`. -/
def setCookieKey : GoStr :=
  'S' :: 'e' :: 't' :: '-' :: 'C' :: 'o' :: 'o' :: 'k' :: 'i' :: 'e' :: []

/-- The key `"Cookie"`. -/
def cookieKey : GoStr := 'C' :: 'o' :: 'o' :: 'k' :: 'i' :: 'e' :: []

/-- The parts of `http.Request` the package touches: method, path
(the URL target), header map and the body stream's contents. -/
structure Request where
  method : GoStr
  path : GoStr
  headers : Headers
  body : GoStr
  deriving DecidableEq, Repr

/-- What the handler leaves in the `httptest` recorder: status code,
header map, and the body buffer. -/
structure HandlerOut where
  code : Nat
  headers : Headers
  body : GoStr
  deriving DecidableEq, Repr

/-- The bound `http.Handler`, as a function from the delivered request
to the recorder contents it produces. -/
abbrev Handler := Request → HandlerOut

/-- The `http.Response` snapshot built by `Check`.  `bodyRemaining` is
the unread part of the body stream (`NewReadCloser(recorder.Body)`):
reading consumes it. -/
structure Resp where
  statusCode : Nat
  headers : Headers
  bodyRemaining : GoStr
  deriving DecidableEq, Repr

/-- The `Checker` state: current request and response (nil pointers as
`none`), cookie jar, and the count of non-fatal assertion failures
recorded against the bound `*testing.T`. -/
structure CheckerS where
  request : Option Request
  response : Option Resp
  cookies : Jar
  failed : Nat
  deriving DecidableEq, Repr

/-- Constructor `New(t, handler)`: empty jar, no request, no response. -/
def newChecker : CheckerS :=
  { request := none, response := none, cookies := [], failed := 0 }

/-- Method `TestRequest(request)`: `assert.NotNil` records a non-fatal
failure when the argument is nil, and then `c.request = request` is
executed unconditionally. -/
def testRequest (c : CheckerS) (request : Option Request) : CheckerS :=
  let c1 := if request.isSome then c else { c with failed := c.failed + 1 }
  { c1 with request := request }

/-- Method `WithHeader(key, value)`: `c.request.Header.Set(key, value)`;
panics when `c.request` is nil. -/
def withHeader (c : CheckerS) (key value : GoStr) : Except GoPanic CheckerS :=
  match c.request with
  | none => .error .nilRequest
  | some req =>
    .ok { c with request := some { req with headers := headerSet req.headers key value } }

/-- Model of net/http `Request.AddCookie` for names and values that need no
sanitization (`sanitizeCookieName`/`sanitizeCookieValue` are the
identity on plain token text): append `name=value` to the `Cookie`
header, after `"; "` when one is already present. -/
def addCookie (req : Request) (name value : GoStr) : Request :=
  let s := name ++ '=' :: value
  let old := headerGet req.headers cookieKey
  let merged := if old = [] then s else old ++ ';' :: ' ' :: s
  { req with headers := headerSet req.headers cookieKey merged }

/-- Method `WithCookie(key, value)`: `c.request.AddCookie(...)`; panics when
`c.request` is nil. -/
def withCookie (c : CheckerS) (key value : GoStr) : Except GoPanic CheckerS :=
  match c.request with
  | none => .error .nilRequest
  | some req => .ok { c with request := some (addCookie req key value) }

/-- Method `WithBody(body)`: `c.request.Body = newClosingBuffer(body)`;
panics when `c.request` is nil. -/
def withBody (c : CheckerS) (body : GoStr) : Except GoPanic CheckerS :=
  match c.request with
  | none => .error .nilRequest
  | some req => .ok { c with request := some { req with body := body } }

/-- Method `WithString(body)`: same as `WithBody` on the bytes of the string. -/
def withString (c : CheckerS) (body : GoStr) : Except GoPanic CheckerS :=
  withBody c body

/-- Method `WithJson(value)`: `json.Marshal`, a non-fatal failure on error
(in which case the nil slice becomes an empty body), then `WithBody`.
The Go JSON encoder is abstracted as a `marshal` function. -/
def withJson {α : Type} (marshal : α → Option GoStr) (c : CheckerS) (value : α) :
    Except GoPanic CheckerS :=
  match marshal value with
  | some encoded => withBody c encoded
  | none => withBody { c with failed := c.failed + 1 } []

/-- Method `HasHeader(key, expectedValue)`: `assert.Exactly` of the expected
value against `c.response.Header.Get(key)`; panics when `c.response`
is nil. -/
def hasHeader (c : CheckerS) (key expected : GoStr) : Except GoPanic CheckerS :=
  match c.response with
  | none => .error .nilResponse
  | some resp =>
    let value := headerGet resp.headers key
    .ok (if expected = value then c else { c with failed := c.failed + 1 })

/-- Method `HasStatus(status)`: `assert.Exactly` against
`c.response.StatusCode`; panics when `c.response` is nil. -/
def hasStatus (c : CheckerS) (status : Nat) : Except GoPanic CheckerS :=
  match c.response with
  | none => .error .nilResponse
  | some resp =>
    .ok (if status = resp.statusCode then c else { c with failed := c.failed + 1 })

/-- Method `HasBody(body)`: `ioutil.ReadAll(c.response.Body)` drains the body
stream (reads from a `bytes.Buffer` never error), then `assert.Equal`
byte-for-byte; panics when `c.response` is nil. -/
def hasBody (c : CheckerS) (body : GoStr) : Except GoPanic CheckerS :=
  match c.response with
  | none => .error .nilResponse
  | some resp =>
    let responseBody := resp.bodyRemaining
    let c0 := { c with response := some { resp with bodyRemaining := ([] : GoStr) } }
    .ok (if body = responseBody then c0 else { c0 with failed := c0.failed + 1 })

/-- Method `HasString(body)`: `HasBody` on the bytes of the string. -/
def hasString (c : CheckerS) (body : GoStr) : Except GoPanic CheckerS :=
  hasBody c body

/-- Method `HasJson(value)`: drain the body, `json.Marshal(value)` with a
non-fatal failure on error (the nil slice then compares as the empty
string), and `assert.Equal` of the two strings. -/
def hasJson {α : Type} (marshal : α → Option GoStr) (c : CheckerS) (value : α) :
    Except GoPanic CheckerS :=
  match c.response with
  | none => .error .nilResponse
  | some resp =>
    let body := resp.bodyRemaining
    let c0 := { c with response := some { resp with bodyRemaining := ([] : GoStr) } }
    match marshal value with
    | some valueBytes =>
      .ok (if valueBytes = body then c0 else { c0 with failed := c0.failed + 1 })
    | none =>
      let c1 := { c0 with failed := c0.failed + 1 }
      .ok (if ([] : GoStr) = body then c1 else { c1 with failed := c1.failed + 1 })

/-- The jar-update loop of `handleCookies` over the `Set-Cookie`
values: split each value at the first `=` when its index is positive
(`ind > 0`), storing `str[0:ind] -> str[ind+1:]`; otherwise
`panic("did not find = in cookie string")`, modelled as `none`. -/
def handleCookiesJar (jar : Jar) : List GoStr → Option Jar
  | [] => some jar
  | s :: rest =>
    match goIndexOf s '=' with
    | some ind =>
      if 0 < ind then
        handleCookiesJar (jarInsert jar (s.take ind) (s.drop (ind + 1))) rest
      else none
    | none => none

/-- Method `generateCookieString`: fold `str += fmt.Sprintf("%s=%s;", name, val)`
over the jar. -/
def generateCookieString (jar : Jar) : GoStr :=
  jar.foldl (fun str p => str ++ p.1 ++ '=' :: (p.2 ++ [';'])) []

/-- Step 1 of `Check()`:
`c.request.Header.Set("Cookie", c.generateCookieString())`, mutating
the stored request in place. -/
def deliveredRequest (req : Request) (jar : Jar) : Request :=
  { req with headers := headerSet req.headers cookieKey (generateCookieString jar) }

/-- The response snapshot `Check()` builds from the recorder. -/
def snapshot (out : HandlerOut) : Resp :=
  { statusCode := out.code, headers := out.headers, bodyRemaining := out.body }

/-- Method `Check()`: set the `Cookie` header from the jar (mutating the
stored request in place), serve the request against the handler's
recorder, snapshot the recorder into a response, scan its `Set-Cookie`
values into the jar (possibly panicking), and store the snapshot.
Panics when `c.request` is nil. -/
def checkE (c : CheckerS) (handler : Handler) : Except GoPanic CheckerS :=
  match c.request with
  | none => .error .nilRequest
  | some req =>
    let req2 := deliveredRequest req c.cookies
    let resp := snapshot (handler req2)
    match handleCookiesJar c.cookies (headerValues resp.headers setCookieKey) with
    | some jar2 =>
      .ok { c with request := some req2, response := some resp, cookies := jar2 }
    | none => .error .cookiePanic

/-- A sequence of `Check()` calls on the same Checker, each against
the handler of that execution. -/
def runChecks (c : CheckerS) : List Handler → Except GoPanic CheckerS
  | [] => .ok c
  | h :: rest =>
    match checkE c h with
    | .ok c2 => runChecks c2 rest
    | .error e => .error e

/-! ### Spec-side vocabulary used to state the claims -/

/-- The wire segment `name=value;` a jar entry contributes to the
`Cookie` header. -/
def cookieSegment (name v : GoStr) : GoStr :=
  name ++ '=' :: (v ++ [';'])

/-- Holds when `seg` occurs contiguously inside `l`. -/
def isSegmentOf (seg l : GoStr) : Prop :=
  ∃ pre post, l = pre ++ seg ++ post

/-- A `Set-Cookie` value the jar-update loop accepts: a `=` occurs at
a positive index. -/
def goodCookieVal (s : GoStr) : Bool :=
  match goIndexOf s '=' with
  | some ind => 0 < ind
  | none => false

/-- The split `handleCookies` performs on an accepted value. -/
def parseCookiePair (s : GoStr) : Option (GoStr × GoStr) :=
  match goIndexOf s '=' with
  | some ind => if 0 < ind then some (s.take ind, s.drop (ind + 1)) else none
  | none => none

/-- The value a given cookie name holds after one response's
`Set-Cookie` values are folded in, starting from `v`: the last
accepted pair for `name` wins. -/
def latestValue (v : GoStr) (name : GoStr) (vals : List GoStr) : GoStr :=
  vals.foldl
    (fun acc s =>
      match parseCookiePair s with
      | some p => if p.1 = name then p.2 else acc
      | none => acc) v

/-! ### Basic lemmas about the jar and string scanning -/

theorem jarLookup_jarInsert (jar : Jar) (k v name : GoStr) :
    jarLookup (jarInsert jar k v) name =
      if k = name then some v else jarLookup jar name := by
  induction jar with
  | nil => simp [jarInsert, jarLookup]
  | cons p rest ih =>
    obtain ⟨k0, v0⟩ := p
    by_cases hk : k0 = k
    · subst hk
      by_cases hn : k0 = name <;> simp [jarInsert, jarLookup, hn]
    · by_cases hn : k0 = name
      · subst hn
        have hkn : ¬ k = k0 := fun h => hk h.symm
        simp [jarInsert, jarLookup, hk, hkn]
      · simp [jarInsert, jarLookup, hk, hn, ih]

theorem mem_of_jarLookup {jar : Jar} {name v : GoStr}
    (h : jarLookup jar name = some v) : (name, v) ∈ jar := by
  induction jar with
  | nil => simp [jarLookup] at h
  | cons p rest ih =>
    obtain ⟨k0, v0⟩ := p
    by_cases hk : k0 = name
    · subst hk
      simp [jarLookup] at h
      subst h
      exact List.mem_cons_self _ _
    · simp only [jarLookup, if_neg hk] at h
      exact List.mem_cons_of_mem _ (ih h)

theorem goIndexOf_split {s : GoStr} {t : Char} {ind : Nat}
    (h : goIndexOf s t = some ind) :
    s = s.take ind ++ t :: s.drop (ind + 1) ∧ t ∉ s.take ind := by
  induction s generalizing ind with
  | nil => cases h
  | cons c rest ih =>
    by_cases hc : c = t
    · have h0 : ind = 0 := by
        simp [goIndexOf, hc] at h
        omega
      subst h0
      subst hc
      simp
    · rcases hrec : goIndexOf rest t with _ | j
      · simp [goIndexOf, hc, hrec] at h
      · have hind : ind = j + 1 := by
          simp [goIndexOf, hc, hrec] at h
          omega
        subst hind
        obtain ⟨hsplit, hmem⟩ := ih hrec
        refine ⟨?_, ?_⟩
        · rw [List.take_succ_cons, List.drop_succ_cons, List.cons_append]
          exact congrArg (c :: ·) hsplit
        · rw [List.take_succ_cons]
          intro hmem2
          rcases List.mem_cons.mp hmem2 with h1 | h1
          · exact hc h1.symm
          · exact hmem h1

theorem handleCookiesJar_cons_none {s : GoStr} (hidx : goIndexOf s '=' = none)
    (jar : Jar) (rest : List GoStr) :
    handleCookiesJar jar (s :: rest) = none := by
  simp [handleCookiesJar, hidx]

theorem handleCookiesJar_cons_bad {s : GoStr} {ind : Nat}
    (hidx : goIndexOf s '=' = some ind) (hpos : ¬ 0 < ind)
    (jar : Jar) (rest : List GoStr) :
    handleCookiesJar jar (s :: rest) = none := by
  simp [handleCookiesJar, hidx, hpos]

theorem handleCookiesJar_cons_good {s : GoStr} {ind : Nat}
    (hidx : goIndexOf s '=' = some ind) (hpos : 0 < ind)
    (jar : Jar) (rest : List GoStr) :
    handleCookiesJar jar (s :: rest) =
      handleCookiesJar (jarInsert jar (s.take ind) (s.drop (ind + 1))) rest := by
  simp [handleCookiesJar, hidx, hpos]

theorem goodCookieVal_true_iff (s : GoStr) :
    goodCookieVal s = true ↔ ∃ ind, goIndexOf s '=' = some ind ∧ 0 < ind := by
  unfold goodCookieVal
  rcases hgi : goIndexOf s '=' with _ | ind <;> simp [hgi]

theorem handleCookiesJar_isNone_iff (jar : Jar) (vals : List GoStr) :
    handleCookiesJar jar vals = none ↔ ∃ s ∈ vals, goodCookieVal s = false := by
  induction vals generalizing jar with
  | nil => simp [handleCookiesJar]
  | cons s rest ih =>
    cases hg : goodCookieVal s
    · have hnone : handleCookiesJar jar (s :: rest) = none := by
        rcases hgi : goIndexOf s '=' with _ | ind
        · exact handleCookiesJar_cons_none hgi jar rest
        · have hpos : ¬ 0 < ind := by
            intro hpos
            have : goodCookieVal s = true := (goodCookieVal_true_iff s).mpr ⟨ind, hgi, hpos⟩
            rw [hg] at this
            cases this
          exact handleCookiesJar_cons_bad hgi hpos jar rest
      rw [hnone]
      exact iff_of_true rfl ⟨s, List.mem_cons_self _ _, hg⟩
    · obtain ⟨ind, hgi, hpos⟩ := (goodCookieVal_true_iff s).mp hg
      rw [handleCookiesJar_cons_good hgi hpos jar rest, ih]
      constructor
      · rintro ⟨x, hx, hbad⟩
        exact ⟨x, List.mem_cons_of_mem _ hx, hbad⟩
      · rintro ⟨x, hx, hbad⟩
        rcases List.mem_cons.mp hx with h1 | h1
        · subst h1
          rw [hg] at hbad
          cases hbad
        · exact ⟨x, h1, hbad⟩

theorem generateCookieString_eq_flatten (jar : Jar) :
    generateCookieString jar = (jar.map (fun p => cookieSegment p.1 p.2)).flatten := by
  suffices h : ∀ acc : GoStr,
      jar.foldl (fun str p => str ++ p.1 ++ '=' :: (p.2 ++ [';'])) acc =
        acc ++ (jar.map (fun p => cookieSegment p.1 p.2)).flatten by
    simpa [generateCookieString] using h []
  induction jar with
  | nil => intro acc; simp
  | cons p rest ih =>
    intro acc
    simp only [List.foldl_cons, List.map_cons, List.flatten_cons, ih, cookieSegment]
    simp [List.append_assoc]

theorem segment_in_generateCookieString {jar : Jar} {name v : GoStr}
    (h : jarLookup jar name = some v) :
    isSegmentOf (cookieSegment name v) (generateCookieString jar) := by
  obtain ⟨l1, l2, hsplit⟩ := List.append_of_mem (mem_of_jarLookup h)
  rw [generateCookieString_eq_flatten, hsplit]
  refine ⟨(l1.map (fun p => cookieSegment p.1 p.2)).flatten,
    (l2.map (fun p => cookieSegment p.1 p.2)).flatten, ?_⟩
  simp

theorem latestValue_cons (v name s : GoStr) (rest : List GoStr) :
    latestValue v name (s :: rest) =
      latestValue
        (match parseCookiePair s with
         | some p => if p.1 = name then p.2 else v
         | none => v) name rest := rfl

theorem handleCookiesJar_lookup {jar : Jar} {vals : List GoStr} {jar2 : Jar}
    {name v : GoStr} (hv : jarLookup jar name = some v)
    (h : handleCookiesJar jar vals = some jar2) :
    jarLookup jar2 name = some (latestValue v name vals) := by
  induction vals generalizing jar v with
  | nil =>
    simp only [handleCookiesJar, Option.some.injEq] at h
    subst h
    simpa [latestValue] using hv
  | cons s rest ih =>
    rcases hgi : goIndexOf s '=' with _ | ind
    · rw [handleCookiesJar_cons_none hgi jar rest] at h
      cases h
    · by_cases hpos : 0 < ind
      · rw [handleCookiesJar_cons_good hgi hpos jar rest] at h
        have hstep :
            jarLookup (jarInsert jar (s.take ind) (s.drop (ind + 1))) name =
              some (if s.take ind = name then s.drop (ind + 1) else v) := by
          rw [jarLookup_jarInsert]
          by_cases hn : s.take ind = name
          · simp [hn]
          · simp [hn, hv]
        have hres := ih hstep h
        rw [hres, latestValue_cons]
        simp only [parseCookiePair, hgi]
        simp [hpos]
      · rw [handleCookiesJar_cons_bad hgi hpos jar rest] at h
        cases h

/-! ### Header-map lemmas -/

theorem headerIndex_headerSetRaw_self (h : Headers) (k v : GoStr) :
    headerIndex (headerSetRaw h k v) k = some [v] := by
  induction h with
  | nil => simp [headerSetRaw, headerIndex]
  | cons p rest ih =>
    obtain ⟨k0, vs⟩ := p
    by_cases hk : k0 = k
    · subst hk
      simp [headerSetRaw, headerIndex]
    · simp [headerSetRaw, headerIndex, hk, ih]

theorem headerGet_headerSet_self (h : Headers) (k v : GoStr) :
    headerGet (headerSet h k v) k = v := by
  unfold headerGet headerSet headerValues
  rw [headerIndex_headerSetRaw_self]
  rfl

theorem headerGet_of_headerIndex_none {h : Headers} {k : GoStr}
    (habs : headerIndex h (canonicalMIMEHeaderKey k) = none) :
    headerGet h k = [] := by
  unfold headerGet headerValues
  rw [habs]
  rfl

/-! ### What a successful / failing `Check()` looks like -/

theorem checkE_ok_cases {c : CheckerS} {handler : Handler} {c2 : CheckerS}
    (h : checkE c handler = .ok c2) :
    ∃ req jar2,
      c.request = some req ∧
      handleCookiesJar c.cookies
        (headerValues (handler (deliveredRequest req c.cookies)).headers setCookieKey) =
          some jar2 ∧
      c2 = { c with
        request := some (deliveredRequest req c.cookies),
        response := some (snapshot (handler (deliveredRequest req c.cookies))),
        cookies := jar2 } := by
  unfold checkE at h
  rcases hreq : c.request with _ | req
  · rw [hreq] at h
    cases h
  · rw [hreq] at h
    simp only [snapshot] at h
    rcases hj : handleCookiesJar c.cookies
        (headerValues (handler (deliveredRequest req c.cookies)).headers setCookieKey)
      with _ | jar2
    · rw [hj] at h
      cases h
    · rw [hj] at h
      simp only [Except.ok.injEq] at h
      exact ⟨req, jar2, rfl, hj, h.symm⟩

theorem checkE_error_iff {c : CheckerS} {req : Request}
    (hreq : c.request = some req) (handler : Handler) (e : GoPanic) :
    checkE c handler = .error e ↔
      (e = GoPanic.cookiePanic ∧
        handleCookiesJar c.cookies
          (headerValues (handler (deliveredRequest req c.cookies)).headers setCookieKey) =
            none) := by
  unfold checkE
  rw [hreq]
  simp only [snapshot]
  rcases hj : handleCookiesJar c.cookies
      (headerValues (handler (deliveredRequest req c.cookies)).headers setCookieKey)
    with _ | jar2 <;> simp [hj]
  exact eq_comm

/-! ### Concrete fixtures used by witnesses and counterexamples -/

/-- A plain `GET /` request with no headers and no body. -/
def getReq : Request :=
  { method := "GET".data, path := "/".data, headers := [], body := [] }

/-- A Checker right after `New(...).Test("GET", "/")`. -/
def ckFresh : CheckerS :=
  { request := some getReq, response := none, cookies := [], failed := 0 }

/-- A Checker whose jar already holds `a -> 1`. -/
def ckJarA1 : CheckerS :=
  { request := some getReq, response := none, cookies := [("a".data, "1".data)], failed := 0 }

/-- A handler that answers 200 with no headers and an empty body. -/
def hdlPlain : Handler := fun _ => { code := 200, headers := [], body := [] }

/-- A handler that answers with `Set-Cookie: a=1`. -/
def hdlSetA1 : Handler :=
  fun _ => { code := 200, headers := [(setCookieKey, ["a=1".data])], body := [] }

/-- A handler that answers with the malformed `Set-Cookie: =foo`. -/
def hdlSetEqFoo : Handler :=
  fun _ => { code := 200, headers := [(setCookieKey, ["=foo".data])], body := [] }

/-! ## C1 -/

/--
C1 (amended).  With a request set, `Check()` aborts (panics) iff some
value of the response's `Set-Cookie` header has no `=` at a positive
index — that is, no `=` at all, or a leading `=` with an empty cookie
name (`strings.Index` returning `0` also fails the `ind > 0` test).
Every value whose first `=` is preceded by a nonempty name is handled
without aborting, and this cookie panic is the only fatal condition in
`Check()` once a request is set.
-/
theorem check_aborts_iff_setCookie_lacks_named_eq
    (c : CheckerS) (req : Request) (hreq : c.request = some req) (handler : Handler) :
    ((∃ e, checkE c handler = .error e) ↔
      ∃ s ∈ headerValues (handler (deliveredRequest req c.cookies)).headers setCookieKey,
        goodCookieVal s = false) ∧
    (∀ e, checkE c handler = .error e → e = GoPanic.cookiePanic) := by
  constructor
  · constructor
    · rintro ⟨e, he⟩
      exact (handleCookiesJar_isNone_iff _ _).mp ((checkE_error_iff hreq handler e).mp he).2
    · intro hbad
      exact ⟨GoPanic.cookiePanic,
        (checkE_error_iff hreq handler _).mpr
          ⟨rfl, (handleCookiesJar_isNone_iff _ _).mpr hbad⟩⟩
  · intro e he
    exact ((checkE_error_iff hreq handler e).mp he).1

/-- Witness for C1 at a concrete input: a fresh Checker, a handler
issuing the well-formed `Set-Cookie: a=1`. -/
theorem check_aborts_iff_setCookie_lacks_named_eq_witness :
    ((∃ e, checkE ckFresh hdlSetA1 = .error e) ↔
      ∃ s ∈ headerValues (hdlSetA1 (deliveredRequest getReq ckFresh.cookies)).headers
          setCookieKey,
        goodCookieVal s = false) ∧
    (∀ e, checkE ckFresh hdlSetA1 = .error e → e = GoPanic.cookiePanic) :=
  check_aborts_iff_setCookie_lacks_named_eq ckFresh getReq rfl hdlSetA1

/-- Counterexample to C1 as stated: the `Set-Cookie` value `=foo`
does contain an `=` separator, yet `Check()` panics on it (its first
`=` is at index 0, failing the code's `ind > 0` test). -/
theorem check_aborts_although_value_contains_eq :
    ('=' ∈ "=foo".data) ∧ checkE ckFresh hdlSetEqFoo = .error GoPanic.cookiePanic :=
  ⟨by decide, rfl⟩

/-! ## C6 -/

/--
C6 (amended).  For every `Set-Cookie` value whose first `=` sits at a
positive index `ind`, the jar-update loop stores the substring before
the first `=` as the name and everything after it — verbatim,
embedded `=` included — as the value: the processed jar is
`jarInsert jar (s.take ind) (s.drop (ind+1))`, the split really is at
the first `=` (`s.take ind` holds none), and the stored entry is
found under the name.  (Values whose `=` is at index 0 instead panic,
see C1.)
-/
theorem setCookie_value_split_at_first_eq
    (jar : Jar) (s : GoStr) (ind : Nat)
    (hidx : goIndexOf s '=' = some ind) (hpos : 0 < ind) :
    handleCookiesJar jar [s] = some (jarInsert jar (s.take ind) (s.drop (ind + 1))) ∧
    s = s.take ind ++ '=' :: s.drop (ind + 1) ∧
    '=' ∉ s.take ind ∧
    jarLookup (jarInsert jar (s.take ind) (s.drop (ind + 1))) (s.take ind) =
      some (s.drop (ind + 1)) := by
  obtain ⟨hsplit, hmem⟩ := goIndexOf_split hidx
  refine ⟨?_, hsplit, hmem, ?_⟩
  · rw [handleCookiesJar_cons_good hidx hpos jar []]
    rfl
  · rw [jarLookup_jarInsert]
    simp

/-- Witness for C6 at a concrete input: the value `a=b=c`, whose
first `=` is at index 1, is stored as `a -> b=c` with the embedded
`=` kept verbatim. -/
theorem setCookie_value_split_at_first_eq_witness :
    handleCookiesJar [] ["a=b=c".data] =
      some (jarInsert [] ("a=b=c".data.take 1) ("a=b=c".data.drop (1 + 1))) ∧
    "a=b=c".data = "a=b=c".data.take 1 ++ '=' :: "a=b=c".data.drop (1 + 1) ∧
    '=' ∉ "a=b=c".data.take 1 ∧
    jarLookup (jarInsert [] ("a=b=c".data.take 1) ("a=b=c".data.drop (1 + 1)))
        ("a=b=c".data.take 1) =
      some ("a=b=c".data.drop (1 + 1)) :=
  setCookie_value_split_at_first_eq [] "a=b=c".data 1 (by decide) (by decide)

/-- Counterexample to C6 as stated: `=v` contains an `=`, but instead
of storing the empty name with value `v`, the loop panics and stores
nothing. -/
theorem setCookie_value_leading_eq_stores_nothing :
    ('=' ∈ "=v".data) ∧ handleCookiesJar [] ["=v".data] = none := by
  decide

/-! ## C2 -/

theorem runChecks_cons_elim {c : CheckerS} {h : Handler} {rest : List Handler}
    {c1 : CheckerS} (hrun : runChecks c (h :: rest) = .ok c1) :
    ∃ c2, checkE c h = .ok c2 ∧ runChecks c2 rest = .ok c1 := by
  unfold runChecks at hrun
  rcases hc : checkE c h with e | c2
  · rw [hc] at hrun
    cases hrun
  · rw [hc] at hrun
    exact ⟨c2, rfl, hrun⟩

/-- One `Check()` on a Checker whose jar holds `name -> v`: the
delivered request's `Cookie` header contains the segment `name=v;`,
and afterwards the jar holds `name` with the most recent value the
response's `Set-Cookie` values assigned it (or still `v` if none
did). -/
theorem checkE_jar_step {c : CheckerS} {hdl : Handler} {c2 : CheckerS} {name v : GoStr}
    (hin : jarLookup c.cookies name = some v) (hok : checkE c hdl = .ok c2) :
    (∃ req2, c2.request = some req2 ∧
        isSegmentOf (cookieSegment name v) (headerGet req2.headers cookieKey)) ∧
    (∃ resp, c2.response = some resp ∧
        jarLookup c2.cookies name =
          some (latestValue v name (headerValues resp.headers setCookieKey))) := by
  obtain ⟨req, jar2, hreq, hj, hc2⟩ := checkE_ok_cases hok
  subst hc2
  constructor
  · refine ⟨deliveredRequest req c.cookies, rfl, ?_⟩
    show isSegmentOf _
      (headerGet (headerSet req.headers cookieKey (generateCookieString c.cookies)) cookieKey)
    rw [headerGet_headerSet_self]
    exact segment_in_generateCookieString hin
  · exact ⟨snapshot (hdl (deliveredRequest req c.cookies)), rfl,
      handleCookiesJar_lookup hin hj⟩

/--
C2.  Cookie-jar persistence: once the jar holds a cookie name, any
sequence of further executions keeps it there, and each next
execution sends `name=value;` (with its current jar value) inside the
outgoing request's `Cookie` header; a response's `Set-Cookie` for the
same name overwrites the value — the jar afterwards holds the most
recently stored value — and no execution ever removes the entry.
-/
theorem cookie_jar_persistence
    (c : CheckerS) (name v : GoStr) (hin : jarLookup c.cookies name = some v)
    (hs : List Handler) (c1 : CheckerS) (hrun : runChecks c hs = .ok c1) :
    ∃ v1, jarLookup c1.cookies name = some v1 ∧
      ∀ hdl c2, checkE c1 hdl = .ok c2 →
        (∃ req2, c2.request = some req2 ∧
            isSegmentOf (cookieSegment name v1) (headerGet req2.headers cookieKey)) ∧
        (∃ resp, c2.response = some resp ∧
            jarLookup c2.cookies name =
              some (latestValue v1 name (headerValues resp.headers setCookieKey))) := by
  suffices hpers : ∀ (hs : List Handler) (c : CheckerS) (v : GoStr),
      jarLookup c.cookies name = some v → ∀ c1, runChecks c hs = .ok c1 →
        ∃ v1, jarLookup c1.cookies name = some v1 by
    obtain ⟨v1, hv1⟩ := hpers hs c v hin c1 hrun
    exact ⟨v1, hv1, fun hdl c2 hok => checkE_jar_step hv1 hok⟩
  intro hs
  induction hs with
  | nil =>
    intro c v hin c1 hrun
    unfold runChecks at hrun
    cases hrun
    exact ⟨v, hin⟩
  | cons h rest ih =>
    intro c v hin c1 hrun
    obtain ⟨c2, hok, hrest⟩ := runChecks_cons_elim hrun
    obtain ⟨-, resp, -, hlook⟩ := checkE_jar_step hin hok
    exact ih c2 _ hlook c1 hrest

/-- The Checker state after `Check()` on `ckJarA1` with `hdlPlain`. -/
def ckJarA1After : CheckerS :=
  { request := some { getReq with headers := [(cookieKey, ["a=1;".data])] },
    response := some { statusCode := 200, headers := [], bodyRemaining := [] },
    cookies := [("a".data, "1".data)], failed := 0 }

/-- Witness for C2 at a concrete input: jar `a -> 1`, one plain
execution already run. -/
theorem cookie_jar_persistence_witness :
    ∃ v1, jarLookup ckJarA1After.cookies "a".data = some v1 ∧
      ∀ hdl c2, checkE ckJarA1After hdl = .ok c2 →
        (∃ req2, c2.request = some req2 ∧
            isSegmentOf (cookieSegment "a".data v1) (headerGet req2.headers cookieKey)) ∧
        (∃ resp, c2.response = some resp ∧
            jarLookup c2.cookies "a".data =
              some (latestValue v1 "a".data (headerValues resp.headers setCookieKey))) :=
  cookie_jar_persistence ckJarA1 "a".data "1".data (by decide) [hdlPlain] ckJarA1After rfl

/-! ## C3 -/

/--
C3.  A successful `Check()` leaves the stored (and delivered) request
with its `Cookie` header equal to exactly the concatenation of one
`name=value;` segment per jar entry — trailing `;` after every
segment including the last, the empty string for an empty jar — and
this value does not depend on whatever `Cookie` header the request
carried before (`Header.Set` overwrites it).
-/
theorem check_sets_cookie_header_exactly
    (c : CheckerS) (handler : Handler) (c2 : CheckerS)
    (hok : checkE c handler = .ok c2) :
    ∃ req2, c2.request = some req2 ∧
      headerGet req2.headers cookieKey =
        (c.cookies.map (fun p => cookieSegment p.1 p.2)).flatten := by
  obtain ⟨req', jar2, hreq', hj, hc2⟩ := checkE_ok_cases hok
  subst hc2
  refine ⟨deliveredRequest req' c.cookies, rfl, ?_⟩
  show headerGet (headerSet req'.headers cookieKey (generateCookieString c.cookies)) cookieKey
    = _
  rw [headerGet_headerSet_self, generateCookieString_eq_flatten]

/-- A Checker whose jar holds `a -> 1` and whose request already
carries a stale `Cookie` header. -/
def ckJarA1Prior : CheckerS :=
  { request := some { getReq with headers := [(cookieKey, ["stale=x".data])] },
    response := none, cookies := [("a".data, "1".data)], failed := 0 }

/-- The Checker state after `Check()` on `ckJarA1Prior` with
`hdlPlain`: the stale `Cookie` header has been overwritten. -/
def ckJarA1PriorAfter : CheckerS :=
  { request := some { getReq with headers := [(cookieKey, ["a=1;".data])] },
    response := some { statusCode := 200, headers := [], bodyRemaining := [] },
    cookies := [("a".data, "1".data)], failed := 0 }

/-- Witness for C3 at a concrete input: a jar with one entry and a
request that already carries a `Cookie` header, which gets
overwritten. -/
theorem check_sets_cookie_header_exactly_witness :
    ∃ req2, ckJarA1PriorAfter.request = some req2 ∧
      headerGet req2.headers cookieKey =
        (ckJarA1Prior.cookies.map (fun p => cookieSegment p.1 p.2)).flatten :=
  check_sets_cookie_header_exactly ckJarA1Prior hdlPlain ckJarA1PriorAfter rfl

/-! ## C4 -/

theorem segment_not_in_nil {seg : GoStr} (hne : seg ≠ []) : ¬ isSegmentOf seg [] := by
  rintro ⟨pre, post, h⟩
  rcases List.append_eq_nil.mp h.symm with ⟨h1, -⟩
  exact hne (List.append_eq_nil.mp h1).2

/--
C4 (amended).  `WithCookie(key, value)` does attach the cookie to the
outgoing request immediately — `AddCookie` appends `key=value` to the
request's `Cookie` header — and it leaves the jar alone; but the next
`Check()` overwrites the whole `Cookie` header with the jar
serialization, so the ad-hoc cookie is *not* part of the request
delivered to the handler (unless the jar happens to contain it).
-/
theorem withCookie_attached_then_overwritten
    (c : CheckerS) (req : Request) (hreq : c.request = some req)
    (k v : GoStr) (c1 : CheckerS) (h1 : withCookie c k v = .ok c1) :
    (∃ req1, c1.request = some req1 ∧
        headerGet req1.headers cookieKey =
          (if headerGet req.headers cookieKey = [] then k ++ '=' :: v
           else headerGet req.headers cookieKey ++ ';' :: ' ' :: (k ++ '=' :: v))) ∧
    c1.cookies = c.cookies ∧
    (∀ hdl c2, checkE c1 hdl = .ok c2 →
        ∃ req2, c2.request = some req2 ∧
          headerGet req2.headers cookieKey = generateCookieString c.cookies) := by
  unfold withCookie at h1
  rw [hreq] at h1
  simp only [Except.ok.injEq] at h1
  subst h1
  refine ⟨⟨addCookie req k v, rfl, ?_⟩, rfl, ?_⟩
  · show headerGet (headerSet req.headers cookieKey _) cookieKey = _
    rw [headerGet_headerSet_self]
  · intro hdl c2 hok
    obtain ⟨req', jar2, hreq', hj, hc2⟩ := checkE_ok_cases hok
    subst hc2
    refine ⟨deliveredRequest req' _, rfl, ?_⟩
    show headerGet (headerSet req'.headers cookieKey (generateCookieString _)) cookieKey = _
    rw [headerGet_headerSet_self]

/-- The Checker after `WithCookie("a", "b")` on `ckFresh`. -/
def ckWithAB : CheckerS :=
  { request := some { getReq with headers := [(cookieKey, ["a=b".data])] },
    response := none, cookies := [], failed := 0 }

/-- The Checker after `Check()` on `ckWithAB` with `hdlPlain`: the
empty jar's serialization has replaced the `Cookie` header. -/
def ckWithABAfter : CheckerS :=
  { request := some { getReq with headers := [(cookieKey, [[]])] },
    response := some { statusCode := 200, headers := [], bodyRemaining := [] },
    cookies := [], failed := 0 }

/-- Witness for C4 (amended) at a concrete input. -/
theorem withCookie_attached_then_overwritten_witness :
    (∃ req1, ckWithAB.request = some req1 ∧
        headerGet req1.headers cookieKey =
          (if headerGet getReq.headers cookieKey = [] then "a".data ++ '=' :: "b".data
           else headerGet getReq.headers cookieKey ++
             ';' :: ' ' :: ("a".data ++ '=' :: "b".data))) ∧
    ckWithAB.cookies = ckFresh.cookies ∧
    (∀ hdl c2, checkE ckWithAB hdl = .ok c2 →
        ∃ req2, c2.request = some req2 ∧
          headerGet req2.headers cookieKey = generateCookieString ckFresh.cookies) :=
  withCookie_attached_then_overwritten ckFresh getReq rfl "a".data "b".data ckWithAB rfl

/-- Counterexample to C4 as stated: on a fresh Checker (empty jar),
`WithCookie("a", "b")` puts `a=b` into the request's `Cookie` header,
yet after the subsequent `Check()` the request delivered to the
handler carries an empty `Cookie` header — `a=b` appears nowhere in
it, so the cookie was not delivered. -/
theorem withCookie_cookie_lost_on_check :
    withCookie ckFresh "a".data "b".data = .ok ckWithAB ∧
    headerGet (addCookie getReq "a".data "b".data).headers cookieKey = "a=b".data ∧
    checkE ckWithAB hdlPlain = .ok ckWithABAfter ∧
    (∃ req2, ckWithABAfter.request = some req2 ∧
      headerGet req2.headers cookieKey = []) ∧
    ¬ isSegmentOf "a=b".data
        (headerGet { getReq with headers := [(cookieKey, [[]])] }.headers cookieKey) := by
  refine ⟨rfl, by decide, rfl, ⟨_, rfl, by decide⟩, ?_⟩
  have hget : headerGet { getReq with headers := [(cookieKey, [[]])] }.headers cookieKey
      = [] := by decide
  rw [hget]
  exact segment_not_in_nil (by decide)

/-! ## C5 -/

theorem hasBody_eq {c : CheckerS} {resp : Resp} (hresp : c.response = some resp)
    (b : GoStr) :
    hasBody c b = .ok
      (if b = resp.bodyRemaining
       then { c with response := some { resp with bodyRemaining := [] } }
       else { c with response := some { resp with bodyRemaining := [] },
                     failed := c.failed + 1 }) := by
  unfold hasBody
  rw [hresp]

/--
C5 (amended).  `hasHeader` and `hasStatus` really do leave the stored
response untouched; but the body-reading assertions consume the
response's body stream: a first `hasBody(b)` leaves the stored body
empty (and passes iff `b` was the body), so an immediately repeated
`hasBody(b)` compares `b` against the now-empty stream and passes iff
`b` is empty — the same body assertion run twice does *not* always
yield the same pass/fail outcome.
-/
theorem assertions_frame_effects
    (c : CheckerS) (resp : Resp) (hresp : c.response = some resp)
    (key ev : GoStr) (st : Nat) (b : GoStr) :
    (∀ c1, hasHeader c key ev = .ok c1 → c1.response = c.response) ∧
    (∀ c1, hasStatus c st = .ok c1 → c1.response = c.response) ∧
    (∀ c1 c2, hasBody c b = .ok c1 → hasBody c1 b = .ok c2 →
      c1.response = some { resp with bodyRemaining := [] } ∧
      (c1.failed = c.failed ↔ b = resp.bodyRemaining) ∧
      (c2.failed = c1.failed ↔ b = [])) := by
  refine ⟨?_, ?_, ?_⟩
  · intro c1 h1
    unfold hasHeader at h1
    rw [hresp] at h1
    simp only [Except.ok.injEq] at h1
    subst h1
    by_cases hP : ev = headerGet resp.headers key <;> simp [hP, hresp]
  · intro c1 h1
    unfold hasStatus at h1
    rw [hresp] at h1
    simp only [Except.ok.injEq] at h1
    subst h1
    by_cases hP : st = resp.statusCode <;> simp [hP, hresp]
  · intro c1 c2 h1 h2
    rw [hasBody_eq hresp b] at h1
    simp only [Except.ok.injEq] at h1
    subst h1
    have hresp1 :
        (if b = resp.bodyRemaining
         then { c with response := some { resp with bodyRemaining := [] } }
         else { c with response := some { resp with bodyRemaining := [] },
                       failed := c.failed + 1 }).response
          = some { resp with bodyRemaining := [] } := by
      by_cases hb : b = resp.bodyRemaining <;> simp [hb]
    rw [hasBody_eq hresp1 b] at h2
    simp only [Except.ok.injEq] at h2
    subst h2
    refine ⟨hresp1, ?_, ?_⟩
    · by_cases hb : b = resp.bodyRemaining <;> simp [hb]
    · by_cases hb0 : b = []
      · subst hb0
        by_cases hb : ([] : GoStr) = resp.bodyRemaining <;> simp [hb]
      · by_cases hb : b = resp.bodyRemaining
        · subst hb
          simp [hb0]
        · simp [hb, hb0]

/-- A response with body `pong`, untouched. -/
def respPong : Resp := { statusCode := 200, headers := [], bodyRemaining := "pong".data }

/-- A Checker holding the `pong` response. -/
def ckPong : CheckerS :=
  { request := none, response := some respPong, cookies := [], failed := 0 }

/-- The state `ckPong` after one body assertion: the stream is drained. -/
def ckPongDrained : CheckerS :=
  { request := none, response := some { respPong with bodyRemaining := [] },
    cookies := [], failed := 0 }

/-- The state `ckPongDrained` after a failing body assertion. -/
def ckPongFailed : CheckerS := { ckPongDrained with failed := 1 }

/-- Witness for C5 (amended) at a concrete input. -/
theorem assertions_frame_effects_witness :
    (∀ c1, hasHeader ckPong "X".data "".data = .ok c1 → c1.response = ckPong.response) ∧
    (∀ c1, hasStatus ckPong 200 = .ok c1 → c1.response = ckPong.response) ∧
    (∀ c1 c2, hasBody ckPong "pong".data = .ok c1 → hasBody c1 "pong".data = .ok c2 →
      c1.response = some { respPong with bodyRemaining := [] } ∧
      (c1.failed = ckPong.failed ↔ "pong".data = respPong.bodyRemaining) ∧
      (c2.failed = c1.failed ↔ "pong".data = [])) :=
  assertions_frame_effects ckPong respPong rfl "X".data "".data 200 "pong".data

/-- Counterexample to C5 as stated: the same `hasString("pong")`
assertion run twice in succession on the same response first passes
(no failure recorded) and then fails (one failure recorded), because
the first run consumed the body stream. -/
theorem hasString_twice_flips_outcome :
    hasString ckPong "pong".data = .ok ckPongDrained ∧
    ckPongDrained.failed = ckPong.failed ∧
    hasString ckPongDrained "pong".data = .ok ckPongFailed ∧
    ckPongFailed.failed = ckPongDrained.failed + 1 :=
  ⟨rfl, rfl, rfl, rfl⟩

/-! ## C7 -/

/-- A handler that echoes the request body verbatim. -/
def echoHandler : Handler := fun req => { code := 200, headers := [], body := req.body }

/--
C7.  JSON round-trip: whenever the encoder succeeds on `v` (the Lean
model's `marshal` is a function, so Go's "stable under repeated
serialization" holds by construction), `WithJson(v)` followed by
`Check()` against a handler that echoes the request body verbatim,
followed by `HasJson(v)`, completes without panicking and records no
assertion failure.
-/
theorem json_roundtrip {α : Type} (marshal : α → Option GoStr)
    (c : CheckerS) (req : Request) (hreq : c.request = some req)
    (v : α) (bs : GoStr) (hm : marshal v = some bs) :
    ∃ c1 c2 c3,
      withJson marshal c v = .ok c1 ∧
      checkE c1 echoHandler = .ok c2 ∧
      hasJson marshal c2 v = .ok c3 ∧
      c3.failed = c.failed := by
  refine ⟨{ c with request := some { req with body := bs } },
    { c with
        request := some (deliveredRequest { req with body := bs } c.cookies),
        response := some { statusCode := 200, headers := [], bodyRemaining := bs },
        cookies := c.cookies },
    { c with
        request := some (deliveredRequest { req with body := bs } c.cookies),
        response := some { statusCode := 200, headers := [], bodyRemaining := [] },
        cookies := c.cookies },
    ?_, ?_, ?_, rfl⟩
  · unfold withJson withBody
    rw [hm, hreq]
  · rfl
  · unfold hasJson
    rw [hm]
    simp

/-- Witness for C7 at a concrete input: a constant encoder and a
fresh Checker. -/
theorem json_roundtrip_witness :
    ∃ c1 c2 c3,
      withJson (fun _ : Nat => some "1".data) ckFresh 0 = .ok c1 ∧
      checkE c1 echoHandler = .ok c2 ∧
      hasJson (fun _ : Nat => some "1".data) c2 0 = .ok c3 ∧
      c3.failed = ckFresh.failed :=
  json_roundtrip (fun _ : Nat => some "1".data) ckFresh getReq rfl 0 "1".data rfl

/-! ## C8 -/

/--
C8 (amended).  `TestRequest(request)` records a non-fatal failure
against the test context when the supplied request is absent, but it
replaces the Checker's internal request with the supplied value
*unconditionally* — an absent (nil) request overwrites whatever
request was there before; response, jar and the failure count (when
the argument is present) are untouched.
-/
theorem testRequest_replaces_unconditionally (c : CheckerS) (r : Option Request) :
    (testRequest c r).request = r ∧
    (testRequest c r).failed = (if r.isSome then c.failed else c.failed + 1) ∧
    (testRequest c r).response = c.response ∧
    (testRequest c r).cookies = c.cookies := by
  unfold testRequest
  by_cases hr : r.isSome <;> simp [hr]

/-- Counterexample to C8 as stated: on a Checker that already holds a
request, `TestRequest(nil)` records the failure but does *not* leave
the internal request unchanged — it overwrites it with nil. -/
theorem testRequest_nil_overwrites :
    ckFresh.request = some getReq ∧
    (testRequest ckFresh none).request = none ∧
    (testRequest ckFresh none).failed = ckFresh.failed + 1 := by
  decide

/-! ## C9 -/

theorem hasHeader_eq {c : CheckerS} {resp : Resp} (hresp : c.response = some resp)
    (key expected : GoStr) :
    hasHeader c key expected = .ok
      (if expected = headerGet resp.headers key then c
       else { c with failed := c.failed + 1 }) := by
  unfold hasHeader
  rw [hresp]

/--
C9.  `HasHeader(key, expectedValue)` compares `expectedValue` by
exact string equality against the response's value for `key`
(`Header.Get`); on mismatch it records exactly one non-fatal failure.
When the response has no entry for the (canonicalized) key, the
comparison is made against the empty string, so an expected value of
`""` passes for an absent header.
-/
theorem hasHeader_exact_string_match
    (c : CheckerS) (resp : Resp) (hresp : c.response = some resp)
    (key expected : GoStr) :
    ∃ c1, hasHeader c key expected = .ok c1 ∧
      (c1.failed = c.failed ↔ expected = headerGet resp.headers key) ∧
      (c1.failed ≠ c.failed → c1.failed = c.failed + 1) ∧
      (headerIndex resp.headers (canonicalMIMEHeaderKey key) = none →
        (c1.failed = c.failed ↔ expected = [])) := by
  rw [hasHeader_eq hresp key expected]
  by_cases he : expected = headerGet resp.headers key
  · rw [if_pos he]
    refine ⟨c, rfl, iff_of_true rfl he, fun h => absurd rfl h, ?_⟩
    intro habs
    rw [headerGet_of_headerIndex_none habs] at he
    exact iff_of_true rfl he
  · rw [if_neg he]
    refine ⟨{ c with failed := c.failed + 1 }, rfl, iff_of_false (by simp) he,
      fun _ => rfl, ?_⟩
    intro habs
    refine iff_of_false (by simp) ?_
    intro hexp
    rw [headerGet_of_headerIndex_none habs] at he
    exact he hexp

/-- Witness for C9 at a concrete input: a response with no headers,
where `hasHeader("X", "")` compares against the empty string and
passes. -/
theorem hasHeader_exact_string_match_witness :
    ∃ c1, hasHeader ckPong "X".data "".data = .ok c1 ∧
      (c1.failed = ckPong.failed ↔ "".data = headerGet respPong.headers "X".data) ∧
      (c1.failed ≠ ckPong.failed → c1.failed = ckPong.failed + 1) ∧
      (headerIndex respPong.headers (canonicalMIMEHeaderKey "X".data) = none →
        (c1.failed = ckPong.failed ↔ "".data = [])) :=
  hasHeader_exact_string_match ckPong respPong rfl "X".data "".data

/-! ## C10 -/

/--
C10.  On a freshly created Checker (`New`), before `Test` or
`TestRequest` has set a request, the current request is nil, and each
of `WithHeader`, `WithCookie`, `WithBody`, `WithString` and `Check()`
dereferences it and panics with a nil-pointer dereference.
-/
theorem builder_methods_panic_without_request (k v b : GoStr) (hdl : Handler) :
    newChecker.request = none ∧
    withHeader newChecker k v = .error GoPanic.nilRequest ∧
    withCookie newChecker k v = .error GoPanic.nilRequest ∧
    withBody newChecker b = .error GoPanic.nilRequest ∧
    withString newChecker b = .error GoPanic.nilRequest ∧
    checkE newChecker hdl = .error GoPanic.nilRequest :=
  ⟨rfl, rfl, rfl, rfl, rfl, rfl⟩

end Httpcheck
